import Mathlib

/-!
Verification of the speardrive HTTP caching gateway against its
natural-language specification.

The development shallowly embeds the Rust sources (`src/main.rs`,
`src/config.rs`, `src/error.rs`, `src/util.rs`) into Lean:

* Rust `String` / `&str` values are Lean `String`s; Rust `str::split`
  on the one-character pattern `"/"` is embedded via `List.splitOn` on
  the underlying character list, and `split` on the slash-dash-slash
  item separator by an explicit
  recursive splitter on character lists;
* `Plan::from_uri` (the URI-to-plan parser) becomes a pure function
  returning `Except Error Plan`, with the per-item loop expressed as a
  fold (`processItems` / `processItem`);
* the stateful materialization procedures (`cache_gitlab_job_artifacts`,
  `cache_static_remote_artifact`, and the composite-building section of
  `service_handle`) become trace-producing functions: every external
  effect (filesystem call, HTTP fetch, subprocess) is recorded as an
  `Op`, and the outcome of each fallible effect is an input supplied by
  an environment record, so that control flow under failure can be
  reasoned about;
* `Plan::to_composite_path` is embedded with a full executable SHA-256
  over the UTF-8 bytes of the derived-`Debug` rendering of the plan,
  exactly as the source hashes `format!("{:?}", plan-with-blank-sub-uri)`.

Numbers are `Nat` with explicit `% 2 ^ w` reductions where the Rust code
computes in fixed-width integers.
-/

/-- Gitlab upstream entry of the configuration (`config.rs`,
`GitlabJobSource`: fields `api_key` and `hostname`). -/
structure GitlabJobSource where
  api_key : String
  hostname : String
deriving DecidableEq

/-- Local-directory upstream entry of the configuration (`config.rs`,
`LocalPathSource`: single field `root`, a `PathBuf` modelled as a
`String`). -/
structure LocalPathSource where
  root : String
deriving DecidableEq

/-- Modelled from the spec: the static remote upstream entry
(`remote-source` mapping value, `\x7bbase-url\x7d`).  `main.rs` imports
`RemoteSource` from `crate::config` and reads `sr.base_url`
(`main.rs` line 431), but `config.rs` as shipped declares no such type;
the definition follows the spec wording and the uses in `main.rs`. -/
structure RemoteSource where
  base_url : String
deriving DecidableEq

/-- The loaded configuration as `main.rs` requires it: the five fields
declared by `config.rs` (`composites_cache`, `local_cache`,
`listen_addr`, `gitlabs`, `local_source`) together with the
`remote_source` mapping that `main.rs` lines 148, 230, 300 and 482 read
and that `config.rs` fails to declare (see `configRsDeclaredOptions`).
`PathBuf`s are modelled as `String`s and the two `BTreeMap`s as
association lists keyed by source name. -/
structure Config where
  composites_cache : String
  local_cache : String
  listen_addr : String
  gitlabs : List (String × GitlabJobSource)
  local_source : List (String × LocalPathSource)
  remote_source : List (String × RemoteSource)
deriving DecidableEq

/-- The option names the `Config` struct of `config.rs` actually
declares, after serde's `rename_all = "kebab-case"`: the struct has
exactly the fields `composites_cache`, `local_cache`, `listen_addr`,
`gitlabs`, `local_source` — and no `remote_source`. -/
def configRsDeclaredOptions : List String :=
  ["composites-cache", "local-cache", "listen-addr", "gitlabs", "local-source"]

/-- Repository kind of a plan (`main.rs`, `enum Kind`): only `RPM`. -/
inductive Kind where
  | RPM
deriving DecidableEq

/-- A Gitlab CI job-artifacts reference (`main.rs`, `struct JobArtifact`).
The `u64` job id is a `Nat` (the parser only produces values
`< 2 ^ 64`). -/
structure JobArtifact where
  source_name : String
  project : String
  job_id : Nat
deriving DecidableEq

/-- A local-directory reference (`main.rs`, `struct LocalArtifact`); the
`PathBuf` key is modelled as a `String`. -/
structure LocalArtifact where
  source_name : String
  key : String
deriving DecidableEq

/-- A static remote tree reference (`main.rs`,
`struct StaticRemoteArtifact`). -/
structure StaticRemoteArtifact where
  source_name : String
  subpath : String
deriving DecidableEq

/-- One contribution to a composite (`main.rs`, `enum Artifact`). -/
inductive Artifact where
  | GitlabJob (job : JobArtifact)
  | Local (loc : LocalArtifact)
  | Remote (remote : StaticRemoteArtifact)
deriving DecidableEq

/-- The normalized description of a composed repository request
(`main.rs`, `struct Plan`). -/
structure Plan where
  artifacts : List Artifact
  sub_uri : String
  kind : Kind
deriving DecidableEq

/-- The error type of `error.rs` (`enum Error`).  Variants whose Rust
payload is a foreign type (`std::io::Error`, `config::ConfigError`, …)
carry that payload's textual rendering as a `String`. -/
inductive Error where
  | IoError (msg : String)
  | ConfigFile
  | ConfigError (msg : String)
  | TomlError (msg : String)
  | YAMLError (msg : String)
  | ParseIntError (kind : String)
  | BuilderError (msg : String)
  | GitlabError (msg : String)
  | Help
  | Logging (msg : String)
  | InvalidURIParts (msg : String)
  | PlanParse (msg : String)
  | UnknownSource (name : String)
  | Boxed (msg : String)
  | CommandError (program : String) (cmdline : String)
  | InvalidAddress (msg : String)
deriving DecidableEq

/-- Embedding of Rust `str::split("/")`: split the character data on
`'/'` and repackage each piece as a `String`.  Like the Rust iterator,
this always yields at least one (possibly empty) piece. -/
def rsplitSlash (s : String) : List String :=
  (s.data.splitOn '/').map (fun l => String.mk l)

/-- Embedding of Rust `[&str]::join("/")` / `Vec<&str>::join("/")`:
interleave `"/"` between the pieces. -/
def rjoinSlash (parts : List String) : String :=
  String.mk (List.intercalate ['/'] (parts.map String.data))

/-- Splitter for the literal slash-dash-slash item separator used by
`Plan::from_uri`: leftmost, non-overlapping
matches, as with the Rust `str::split` on a multi-character pattern. -/
def splitDashSepAux : List Char → List Char → List (List Char)
  | '/' :: '-' :: '/' :: rest, acc => acc.reverse :: splitDashSepAux rest []
  | c :: rest, acc => splitDashSepAux rest (c :: acc)
  | [], acc => [acc.reverse]

/-- Embedding of Rust `str::split` with the slash-dash-slash separator
on strings. -/
def splitDashSep (s : String) : List String :=
  (splitDashSepAux s.data []).map (fun l => String.mk l)

/-- Embedding of `u64::from_str` as used by `job_id.parse()?` in
`Plan::from_uri`: an optional leading `'+'`, then at least one ASCII
digit, no other characters, and the value must fit in 64 bits; on
failure the `ParseIntError` kind is reported (`Empty`, `InvalidDigit`
or `PosOverflow`). -/
def parse_u64 (s : String) : Except String Nat :=
  match s.data with
  | [] => .error "Empty"
  | c :: cs =>
    let digits := if c = '+' then cs else c :: cs
    match digits with
    | [] => .error "InvalidDigit"
    | ds =>
      if ds.all (fun d => d.isDigit) then
        let n := ds.foldl (fun acc d => acc * 10 + (d.toNat - '0'.toNat)) 0
        if n < 2 ^ 64 then .ok n else .error "PosOverflow"
      else .error "InvalidDigit"

/-- Characters of the class `[/a-z0-9_-]` from the project-name regex in
`Plan::from_uri`. -/
def reClassChar (c : Char) : Bool :=
  c = '/' || ('a' ≤ c && c ≤ 'z') || ('0' ≤ c && c ≤ '9') || c = '_' || c = '-'

/-- Embedding of `Regex::new("[/a-z0-9_-]+").is_match(project)`.  Rust's
`is_match` reports whether the pattern matches anywhere in the string,
so for this pattern it holds exactly when some character of the string
belongs to the class. -/
def re_is_match (s : String) : Bool :=
  s.data.any reClassChar

/-- Spec-side reading of the project rule of claim C3: every character of
the project belongs to the class `[/a-z0-9_-]` ("projects consisting of
characters from that class"). -/
def specProjectCharsetOk (s : String) : Bool :=
  s.data.all reClassChar

/-- A string contains a `..` path segment when splitting it on `/`
yields a piece equal to `".."`. -/
def hasDotdotSeg (s : String) : Prop :=
  ".." ∈ rsplitSlash s

instance (s : String) : Decidable (hasDotdotSeg s) := by
  unfold hasDotdotSeg
  infer_instance

/-- The filter closure of the path-traversal defense in
`Plan::from_uri` (and the same closure in
`cache_static_remote_artifact`): keep a part when it differs from the
literal `".."`. -/
def notDotdot (x : String) : Bool := x != ".."

/-- Mutable state of the item loop of `Plan::from_uri`: the artifact
vector and the current `sub_uri`. -/
structure PState where
  artifacts : List Artifact
  sub_uri : String
deriving DecidableEq

/-- One iteration of the item loop of `Plan::from_uri` (`main.rs` lines
101–156): split the item on `/`, pop the prefix, handle the `rpm`
item, strip `".."` parts, and dispatch on which configured source map
contains the prefix. -/
def processItem (config : Config) (st : PState) (item : String) : Except Error PState :=
  match rsplitSlash item with
  | [] => .ok st
  | pfx :: rest =>
    if pfx = "rpm" then
      .ok { st with sub_uri := "/" ++ rjoinSlash rest }
    else
      let parts := rest.filter notDotdot
      if (config.gitlabs.lookup pfx).isSome then
        match parts.getLast? with
        | none => .ok st
        | some job_id =>
          let project := rjoinSlash parts.dropLast
          if ¬ re_is_match project then
            .error (.PlanParse (project ++ " invalid project name"))
          else
            match parse_u64 job_id with
            | .error kind => .error (.ParseIntError kind)
            | .ok j =>
              .ok { st with
                artifacts := st.artifacts ++ [.GitlabJob ⟨pfx, project, j⟩] }
      else if (config.local_source.lookup pfx).isSome then
        match parts.getLast? with
        | none => .ok st
        | some key =>
          if key ≠ ".." then
            .ok { st with artifacts := st.artifacts ++ [.Local ⟨pfx, key⟩] }
          else
            .ok st
      else if (config.remote_source.lookup pfx).isSome then
        .ok { st with
          artifacts := st.artifacts ++ [.Remote ⟨pfx, rjoinSlash parts⟩] }
      else
        .error (.UnknownSource pfx)

/-- The item loop of `Plan::from_uri` as a fold with early error
return. -/
def processItems (config : Config) (st : PState) : List String → Except Error PState
  | [] => .ok st
  | item :: rest =>
    match processItem config st item with
    | .error e => .error e
    | .ok st2 => processItems config st2 rest

/-- Embedding of `Plan::from_uri` (`main.rs` lines 90–163): split the
URI on `/`, require more than two components, re-join everything after
the first component, split on the slash-dash-slash separator into
items and run the item
loop. -/
def from_uri (uri : String) (config : Config) : Except Error Plan :=
  let comps := rsplitSlash uri
  if comps.length ≤ 2 then
    .error (.PlanParse "not enough components")
  else
    let items := splitDashSep (rjoinSlash (comps.drop 1))
    match processItems config ⟨[], ""⟩ items with
    | .error e => .error e
    | .ok st => .ok ⟨st.artifacts, st.sub_uri, .RPM⟩

/-- The list of items the parser derives from a URI (used to phrase
claims about per-item behavior of `from_uri`). -/
def uriItems (uri : String) : List String :=
  splitDashSep (rjoinSlash ((rsplitSlash uri).drop 1))

example :
    from_uri "/gl/grp/proj/42/-/rpm/repodata/repomd.xml"
      ⟨"/cc", "/lc", "a:1", [("gl", ⟨"k", "h"⟩)], [], []⟩ =
    .ok ⟨[.GitlabJob ⟨"gl", "grp/proj", 42⟩], "/repodata/repomd.xml", .RPM⟩ := by
  rfl

example :
    from_uri "/unknown/x/1" ⟨"/cc", "/lc", "a:1", [("gl", ⟨"k", "h"⟩)], [], []⟩ =
    .error (.UnknownSource "unknown") := by
  rfl

example :
    from_uri "/rpm/../x" ⟨"/cc", "/lc", "a:1", [("gl", ⟨"k", "h"⟩)], [], []⟩ =
    .ok ⟨[], "/../x", .RPM⟩ := by
  rfl

example :
    from_uri "/gl/A_B/5" ⟨"/cc", "/lc", "a:1", [("gl", ⟨"k", "h"⟩)], [], []⟩ =
    .ok ⟨[.GitlabJob ⟨"gl", "A_B", 5⟩], "", .RPM⟩ := by
  rfl

/-- Reduction of a `Nat` to a 32-bit word, used wherever the Rust code
computes in `u32` (the SHA-256 internals of the `sha2` crate). -/
def m32 (n : Nat) : Nat := n % 2 ^ 32

/-- Bitwise complement on 32-bit words. -/
def not32 (n : Nat) : Nat := n ^^^ (2 ^ 32 - 1)

/-- Right rotation of a 32-bit word by `w` bits. -/
def rotr32 (w n : Nat) : Nat := m32 ((n >>> w) ||| (n <<< (32 - w)))

/-- SHA-256 upper-case sigma-0. -/
def bSig0 (x : Nat) : Nat := rotr32 2 x ^^^ rotr32 13 x ^^^ rotr32 22 x

/-- SHA-256 upper-case sigma-1. -/
def bSig1 (x : Nat) : Nat := rotr32 6 x ^^^ rotr32 11 x ^^^ rotr32 25 x

/-- SHA-256 lower-case sigma-0. -/
def sSig0 (x : Nat) : Nat := rotr32 7 x ^^^ rotr32 18 x ^^^ (x >>> 3)

/-- SHA-256 lower-case sigma-1. -/
def sSig1 (x : Nat) : Nat := rotr32 17 x ^^^ rotr32 19 x ^^^ (x >>> 10)

/-- SHA-256 choice function. -/
def shaCh (x y z : Nat) : Nat := (x &&& y) ^^^ (not32 x &&& z)

/-- SHA-256 majority function. -/
def shaMaj (x y z : Nat) : Nat := (x &&& y) ^^^ (x &&& z) ^^^ (y &&& z)

/-- The 64 SHA-256 round constants. -/
def shaK : List Nat :=
  [0x428a2f98, 0x71374491, 0xb5c0fbcf, 0xe9b5dba5, 0x3956c25b, 0x59f111f1, 0x923f82a4, 0xab1c5ed5,
   0xd807aa98, 0x12835b01, 0x243185be, 0x550c7dc3, 0x72be5d74, 0x80deb1fe, 0x9bdc06a7, 0xc19bf174,
   0xe49b69c1, 0xefbe4786, 0x0fc19dc6, 0x240ca1cc, 0x2de92c6f, 0x4a7484aa, 0x5cb0a9dc, 0x76f988da,
   0x983e5152, 0xa831c66d, 0xb00327c8, 0xbf597fc7, 0xc6e00bf3, 0xd5a79147, 0x06ca6351, 0x14292967,
   0x27b70a85, 0x2e1b2138, 0x4d2c6dfc, 0x53380d13, 0x650a7354, 0x766a0abb, 0x81c2c92e, 0x92722c85,
   0xa2bfe8a1, 0xa81a664b, 0xc24b8b70, 0xc76c51a3, 0xd192e819, 0xd6990624, 0xf40e3585, 0x106aa070,
   0x19a4c116, 0x1e376c08, 0x2748774c, 0x34b0bcb5, 0x391c0cb3, 0x4ed8aa4a, 0x5b9cca4f, 0x682e6ff3,
   0x748f82ee, 0x78a5636f, 0x84c87814, 0x8cc70208, 0x90befffa, 0xa4506ceb, 0xbef9a3f7, 0xc67178f2]

/-- The 8 initial SHA-256 hash words. -/
def shaH0 : List Nat :=
  [0x6a09e667, 0xbb67ae85, 0x3c6ef372, 0xa54ff53a, 0x510e527f, 0x9b05688c, 0x1f83d9ab, 0x5be0cd19]

/-- Big-endian 8-byte encoding of a (64-bit) natural number. -/
def be64 (n : Nat) : List Nat :=
  [(n >>> 56) % 256, (n >>> 48) % 256, (n >>> 40) % 256, (n >>> 32) % 256,
   (n >>> 24) % 256, (n >>> 16) % 256, (n >>> 8) % 256, n % 256]

/-- Big-endian 4-byte encoding of a 32-bit word. -/
def be32 (n : Nat) : List Nat :=
  [(n >>> 24) % 256, (n >>> 16) % 256, (n >>> 8) % 256, n % 256]

/-- SHA-256 padding: a `0x80` byte, zeros to 56 mod 64, and the
big-endian 64-bit bit length. -/
def sha256Pad (msg : List Nat) : List Nat :=
  let L := msg.length
  let zeros := (64 + 56 - ((L + 1) % 64)) % 64
  msg ++ [0x80] ++ List.replicate zeros 0 ++ be64 ((L * 8) % 2 ^ 64)

/-- Split a byte list into 64-byte blocks.  The first argument is fuel
(structural recursion measure); calling with the list length is always
enough fuel. -/
def chunks64 : Nat → List Nat → List (List Nat)
  | _, [] => []
  | 0, l => [l]
  | fuel + 1, l => l.take 64 :: chunks64 fuel (l.drop 64)

/-- Group bytes into big-endian 32-bit words (fuel-driven structural
recursion; the input is always a multiple of four bytes long). -/
def bytesToWords : Nat → List Nat → List Nat
  | _, [] => []
  | 0, _ => []
  | fuel + 1, b0 :: b1 :: b2 :: b3 :: rest =>
    (b0 * 2 ^ 24 + b1 * 2 ^ 16 + b2 * 2 ^ 8 + b3) :: bytesToWords fuel rest
  | _ + 1, _ => []

/-- Extend the 16 message-schedule words of a block to 64. -/
def sha256Schedule (w16 : List Nat) : List Nat :=
  (List.range 48).foldl
    (fun w _ =>
      let i := w.length
      w ++ [m32 (sSig1 (w.getD (i - 2) 0) + w.getD (i - 7) 0 +
                 sSig0 (w.getD (i - 15) 0) + w.getD (i - 16) 0)])
    w16

/-- One SHA-256 compression round over the working state
`[a, b, c, d, e, f, g, h]`. -/
def sha256Round (w : List Nat) (s : List Nat) (i : Nat) : List Nat :=
  let a := s.getD 0 0
  let b := s.getD 1 0
  let c := s.getD 2 0
  let d := s.getD 3 0
  let e := s.getD 4 0
  let f := s.getD 5 0
  let g := s.getD 6 0
  let h := s.getD 7 0
  let t1 := m32 (h + bSig1 e + shaCh e f g + shaK.getD i 0 + w.getD i 0)
  let t2 := m32 (bSig0 a + shaMaj a b c)
  [m32 (t1 + t2), a, b, c, m32 (d + t1), e, f, g]

/-- SHA-256 compression of one 64-byte block into the hash state. -/
def sha256Compress (h : List Nat) (block : List Nat) : List Nat :=
  let w := sha256Schedule (bytesToWords block.length block)
  let s := (List.range 64).foldl (sha256Round w) h
  List.zipWith (fun x y => m32 (x + y)) h s

/-- SHA-256 of a byte list, as a list of 32 bytes. -/
def sha256 (msg : List Nat) : List Nat :=
  let padded := sha256Pad msg
  let h := (chunks64 padded.length padded).foldl sha256Compress shaH0
  (h.map be32).flatten

/-- Lowercase hexadecimal digit. -/
def hexDigit (n : Nat) : Char :=
  if n < 10 then Char.ofNat ('0'.toNat + n) else Char.ofNat ('a'.toNat + (n - 10))

/-- Lowercase hexadecimal rendering of one byte (two digits). -/
def hexByte (n : Nat) : List Char := [hexDigit (n / 16 % 16), hexDigit (n % 16)]

/-- Embedding of `hex::encode`: lowercase hex of a byte list. -/
def hexEncode (bytes : List Nat) : String := String.mk ((bytes.map hexByte).flatten)

/-- Hexadecimal digits of a natural number without leading zeros
(fuel-driven; used for Rust `\u` escapes in `Debug` output). -/
def hexNatAux : Nat → Nat → List Char
  | 0, _ => []
  | fuel + 1, n => if n = 0 then [] else hexNatAux fuel (n / 16) ++ [hexDigit (n % 16)]

/-- Lowercase hexadecimal rendering of a natural number. -/
def hexNatChars (n : Nat) : List Char :=
  if n = 0 then ['0'] else hexNatAux n n

/-- UTF-8 encoding of one character, as bytes. -/
def utf8Encode (c : Char) : List Nat :=
  let n := c.toNat
  if n < 0x80 then [n]
  else if n < 0x800 then [0xc0 + n / 0x40, 0x80 + n % 0x40]
  else if n < 0x10000 then [0xe0 + n / 0x1000, 0x80 + n / 0x40 % 0x40, 0x80 + n % 0x40]
  else [0xf0 + n / 0x40000, 0x80 + n / 0x1000 % 0x40, 0x80 + n / 0x40 % 0x40, 0x80 + n % 0x40]

/-- UTF-8 bytes of a string (`str::as_bytes`). -/
def strBytes (s : String) : List Nat := (s.data.map utf8Encode).flatten

/-- Escaping of one character as in Rust's `Debug` rendering of strings
(`char::escape_debug`): quote, backslash, newline, carriage return, tab
are backslash-escaped, other control characters print as `\u` escapes,
and remaining characters are kept.  This is exact for ASCII data; the
Unicode printability classes that `escape_debug` consults for higher
code points are simplified to "kept". -/
def escapeDebugChar (c : Char) : List Char :=
  if c = '"' then ['\\', '"']
  else if c = '\\' then ['\\', '\\']
  else if c = '\n' then ['\\', 'n']
  else if c = '\r' then ['\\', 'r']
  else if c = '\t' then ['\\', 't']
  else if c.toNat < 0x20 || c.toNat = 0x7f then
    '\\' :: 'u' :: Char.ofNat 123 :: (hexNatChars c.toNat ++ [Char.ofNat 125])
  else [c]

/-- Rust `Debug` rendering of a string without the surrounding
quotes. -/
def escapeDebug (s : String) : String := String.mk ((s.data.map escapeDebugChar).flatten)

/-- Rust `Debug` rendering of a `String` (or `PathBuf`): quoted and
escaped. -/
def fmtStr (s : String) : String := "\"" ++ escapeDebug s ++ "\""

/-- Derived `Debug` rendering of `JobArtifact`. -/
def fmtJobArtifact (j : JobArtifact) : String :=
  "JobArtifact \x7b source_name: " ++ fmtStr j.source_name ++
    ", project: " ++ fmtStr j.project ++ ", job_id: " ++ toString j.job_id ++ " \x7d"

/-- Derived `Debug` rendering of `LocalArtifact`. -/
def fmtLocalArtifact (l : LocalArtifact) : String :=
  "LocalArtifact \x7b source_name: " ++ fmtStr l.source_name ++
    ", key: " ++ fmtStr l.key ++ " \x7d"

/-- Derived `Debug` rendering of `StaticRemoteArtifact`. -/
def fmtRemoteArtifact (r : StaticRemoteArtifact) : String :=
  "StaticRemoteArtifact \x7b source_name: " ++ fmtStr r.source_name ++
    ", subpath: " ++ fmtStr r.subpath ++ " \x7d"

/-- Derived `Debug` rendering of `Artifact`. -/
def fmtArtifact : Artifact → String
  | .GitlabJob j => "GitlabJob(" ++ fmtJobArtifact j ++ ")"
  | .Local l => "Local(" ++ fmtLocalArtifact l ++ ")"
  | .Remote r => "Remote(" ++ fmtRemoteArtifact r ++ ")"

/-- Derived `Debug` rendering of `Kind`. -/
def fmtKind : Kind → String
  | .RPM => "RPM"

/-- Derived `Debug` rendering of a `Vec`. -/
def fmtVec (xs : List String) : String := "[" ++ String.intercalate ", " xs ++ "]"

/-- Derived `Debug` rendering of `Plan`, the exact string
`format!("\x7b:?\x7d", plan)` that `to_composite_path` hashes. -/
def fmtPlan (p : Plan) : String :=
  "Plan \x7b artifacts: " ++ fmtVec (p.artifacts.map fmtArtifact) ++
    ", sub_uri: " ++ fmtStr p.sub_uri ++ ", kind: " ++ fmtKind p.kind ++ " \x7d"

/-- Embedding of `Plan::to_composite_path` (`main.rs` lines 74–88):
blank the `sub_uri`, render the plan with the derived `Debug`
formatter, hash the UTF-8 bytes with SHA-256 and return the lowercase
hex digest. -/
def to_composite_path (p : Plan) : String :=
  hexEncode (sha256 (strBytes (fmtPlan ⟨p.artifacts, "", p.kind⟩)))

/-- Embedding of `PathBuf::join` / `Path::join` for the path shapes the
program builds: an absolute right-hand side replaces the base, an empty
right-hand side leaves a trailing separator, anything else is appended
after a separator. -/
def pathJoin (a b : String) : String :=
  match b.data with
  | '/' :: _ => b
  | [] => a ++ "/"
  | _ => a ++ "/" ++ b

/-- Model of `Path::parent` for the slash-joined relative paths built in
`cache_static_remote_artifact`: drop the last `/`-segment. -/
def stringParent (p : String) : String :=
  rjoinSlash ((rsplitSlash p).dropLast)

/-- Embedding of Rust `str::lines()`: split on newline, treat a final
newline as a terminator rather than a separator, and strip one trailing
carriage return from each line. -/
def rustLines (s : String) : List String :=
  let parts := (s.data.splitOn '\n').map (fun l => String.mk l)
  let parts :=
    match parts.getLast? with
    | some "" => parts.dropLast
    | _ => parts
  parts.map (fun l =>
    match l.data.getLast? with
    | some '\r' => String.mk l.data.dropLast
    | _ => l)

/-- The per-line sanitization of `cache_static_remote_artifact`
(`main.rs` lines 435–439): split the line on `/`, drop parts equal to
`".."`, skip leading empty parts, re-join with `/`. -/
def sanitizeLine (line : String) : String :=
  rjoinSlash (((rsplitSlash line).filter notDotdot).dropWhile (fun x => x == ""))

/-- External effects the materialization procedures perform, recorded in
order as a trace: filesystem calls, the advisory lock, HTTP fetches and
`bash` one-liners. -/
inductive Op where
  | checkExists (p : String)
  | createDirAll (p : String)
  | createFile (p : String)
  | lockExclusive (p : String)
  | removeDirAll (p : String)
  | removeFile (p : String)
  | writeFile (p : String)
  | rename (src : String) (dst : String)
  | bash (cmd : String)
  | gitlabDownload (project : String) (job_id : Nat)
  | httpGet (url : String)
deriving DecidableEq

/-- Result of running a materialization procedure: the trace of
attempted effects, the `Result` the Rust function returns, and whether
the final directory was published (the terminal `rename` succeeded)
during this call. -/
structure RunResult where
  ops : List Op
  result : Except Error Unit
  published : Bool

/-- Run a sequence of effects, each given as an optional recorded
operation together with the outcome its real-world execution would
yield; stop at the first failing effect, as the Rust `?` operator
does.  Effects whose `Result` the source discards (the best-effort
`remove_dir_all`) carry outcome `none`. -/
def runSteps : List (Option Op × Option Error) → List Op × Option Error
  | [] => ([], none)
  | (op, outc) :: rest =>
    match outc with
    | some e => (op.toList, some e)
    | none =>
      let (ops, r) := runSteps rest
      (op.toList ++ ops, r)

/-- Package a step sequence whose final step is the publishing `rename`
into a `RunResult`. -/
def stepsResult (pre : List Op) (steps : List (Option Op × Option Error)) : RunResult :=
  let (ops, err) := runSteps steps
  { ops := pre ++ ops
    result := match err with | some e => .error e | none => .ok ()
    published := err.isNone }

/-- Environment for one run of the Gitlab-artifact materialization: the
answer of the `path.exists()` check `service_handle` performs before
calling `cache_gitlab_job_artifacts`, the state of the filesystem at
the instant the exclusive lock is granted (`finalExistsAtLock`, which
the code never queries — there is no re-check under the lock), and the
outcome of every fallible effect of `cache_gitlab_job_artifacts`. -/
structure GitlabEnv where
  finalExistsPre : Bool
  finalExistsAtLock : Bool
  createProjectDir : Option Error
  createLockFile : Option Error
  lockRes : Option Error
  createTmpDir : Option Error
  buildEndpoint : Option Error
  download : Option Error
  writeZip : Option Error
  unzip : Option Error
  removeZip : Option Error
  renameRes : Option Error

/-- Embedding of the Gitlab-artifact materialization: the
`path.exists()` fast path of `service_handle` (`main.rs` lines
206–227) followed by `cache_gitlab_job_artifacts` (`main.rs` lines
356–408).  The trace records the effects in source order: create the
project directory, create and lock the `lock` file, best-effort remove
and re-create `path_tmp`, build the endpoint, download the zip, write
it, `unzip` it, delete the zip, and rename `path_tmp` to `path`.
There is no existence re-check between `lock_exclusive` and the fetch. -/
def gitlabMaterialize (local_cache : String) (job : JobArtifact) (env : GitlabEnv) : RunResult :=
  let project_path := pathJoin (pathJoin local_cache job.source_name) job.project
  let lock := pathJoin project_path "lock"
  let path_tmp := pathJoin project_path (toString job.job_id ++ ".tmp")
  let path := pathJoin project_path (toString job.job_id)
  if env.finalExistsPre then
    { ops := [.checkExists path], result := .ok (), published := false }
  else
    stepsResult [.checkExists path]
      [(some (.createDirAll project_path), env.createProjectDir),
       (some (.createFile lock), env.createLockFile),
       (some (.lockExclusive lock), env.lockRes),
       (some (.removeDirAll path_tmp), none),
       (some (.createDirAll path_tmp), env.createTmpDir),
       (none, env.buildEndpoint),
       (some (.gitlabDownload job.project job.job_id), env.download),
       (some (.writeFile (pathJoin path_tmp "artifacts_zip")), env.writeZip),
       (some (.bash ("unzip " ++ pathJoin path_tmp "artifacts_zip" ++ " -d " ++ path_tmp)), env.unzip),
       (some (.removeFile (pathJoin path_tmp "artifacts_zip")), env.removeZip),
       (some (.rename path_tmp path), env.renameRes)]

/-- Environment for one run of the static-remote materialization,
analogous to `GitlabEnv`; `fetchList` is the outcome of downloading
`list.txt` (the manifest text on success), and the three indexed
families give the outcomes of the per-line effects. -/
structure RemoteEnv where
  finalExistsPre : Bool
  finalExistsAtLock : Bool
  createOrigDir : Option Error
  createLockFile : Option Error
  lockRes : Option Error
  createTmpDir : Option Error
  fetchList : Except Error String
  parentExists : Nat → Bool
  mkParentDir : Nat → Option Error
  download : Nat → Option Error
  writeRes : Nat → Option Error
  renameRes : Option Error

/-- The per-line loop of `cache_static_remote_artifact` (`main.rs`
lines 434–454), as effect steps: for the line at index `i`, sanitize
it, create the parent directory when it does not exist yet, download
`\x7bbase-url\x7d/\x7bsubpath\x7d/\x7bline\x7d` and write the file under
`path_tmp`. -/
def remoteLineSteps (base_url subpath path_tmp : String) (env : RemoteEnv) :
    Nat → List String → List (Option Op × Option Error)
  | _, [] => []
  | i, line :: rest =>
    let l := sanitizeLine line
    let local_path := pathJoin path_tmp l
    (if env.parentExists i then []
     else [(some (.createDirAll (stringParent local_path)), env.mkParentDir i)]) ++
    [(some (.httpGet (base_url ++ "/" ++ subpath ++ "/" ++ l)), env.download i),
     (some (.writeFile local_path), env.writeRes i)] ++
    remoteLineSteps base_url subpath path_tmp env (i + 1) rest

/-- Embedding of the static-remote materialization: the
`path.exists()` fast path of `service_handle` (`main.rs` lines
231–251) followed by `cache_static_remote_artifact` (`main.rs` lines
410–460): create the source cache directory, create and lock `lock`,
best-effort remove and re-create `path_tmp`, fetch `list.txt`, process
every line `lines()` yields, and rename `path_tmp` to `path`.  There is
no existence re-check between `lock_exclusive` and the fetch. -/
def remoteMaterialize (local_cache : String) (sra : StaticRemoteArtifact)
    (sr : RemoteSource) (env : RemoteEnv) : RunResult :=
  let orig_path := pathJoin local_cache sra.source_name
  let lock := pathJoin orig_path "lock"
  let path_tmp := pathJoin orig_path (sra.subpath ++ ".tmp")
  let path := pathJoin orig_path sra.subpath
  if env.finalExistsPre then
    { ops := [.checkExists path], result := .ok (), published := false }
  else
    let pre := runSteps
      [(some (.createDirAll orig_path), env.createOrigDir),
       (some (.createFile lock), env.createLockFile),
       (some (.lockExclusive lock), env.lockRes),
       (some (.removeDirAll path_tmp), none),
       (some (.createDirAll path_tmp), env.createTmpDir)]
    match pre with
    | (ops0, some e) =>
      { ops := .checkExists path :: ops0, result := .error e, published := false }
    | (ops0, none) =>
      let list_url := sr.base_url ++ "/" ++ sra.subpath ++ "/list.txt"
      match env.fetchList with
      | .error e =>
        { ops := .checkExists path :: ops0 ++ [.httpGet list_url],
          result := .error e, published := false }
      | .ok list_txt =>
        let (ops1, err) := runSteps
          (remoteLineSteps sr.base_url sra.subpath path_tmp env 0 (rustLines list_txt) ++
           [(some (.rename path_tmp path), env.renameRes)])
        { ops := .checkExists path :: ops0 ++ [.httpGet list_url] ++ ops1
          result := match err with | some e => .error e | none => .ok ()
          published := err.isNone }

/-- Environment for one composite build: the answer of the
`composite_path.exists()` check (taken before the lock), the state at
lock grant (never queried by the code), and the outcomes of the
fallible effects of the composite section of `service_handle`. -/
structure CompositeEnv where
  finalExistsPre : Bool
  finalExistsAtLock : Bool
  createCacheDir : Option Error
  createLockFile : Option Error
  lockRes : Option Error
  createTmpDir : Option Error
  copyRes : Nat → Option Error
  writeUrl : Option Error
  createrepoRes : Option Error
  renameRes : Option Error

/-- Resolution of an artifact's on-disk source path for the composite
copy loop (`main.rs` lines 282–307): `None` when the artifact's source
name is not configured (the copy is silently skipped). -/
def artifactSourcePath (config : Config) (a : Artifact) : Option String :=
  match a with
  | .GitlabJob job =>
    if (config.gitlabs.lookup job.source_name).isSome then
      some (pathJoin (pathJoin (pathJoin config.local_cache job.source_name) job.project)
        (toString job.job_id))
    else none
  | .Local loc =>
    match config.local_source.lookup loc.source_name with
    | some ls => some (pathJoin ls.root loc.key)
    | none => none
  | .Remote remote =>
    if (config.remote_source.lookup remote.source_name).isSome then
      some (pathJoin (pathJoin config.local_cache remote.source_name) remote.subpath)
    else none

/-- The copy loop of the composite build (`main.rs` lines 278–315): for
the artifact at index `idx` with a resolved source path, run the
hardlink-or-copy `bash` one-liner into `path_tmp/idx`. -/
def compositeCopySteps (config : Config) (path_tmp : String) (env : CompositeEnv) :
    Nat → List Artifact → List (Option Op × Option Error)
  | _, [] => []
  | idx, a :: rest =>
    (match artifactSourcePath config a with
     | some src =>
       let dest := pathJoin path_tmp (toString idx)
       [(some (.bash ("cp -al " ++ src ++ " " ++ dest ++ "/ || cp -a " ++ src ++ " " ++ dest ++ "/")),
         env.copyRes idx)]
     | none => []) ++ compositeCopySteps config path_tmp env (idx + 1) rest

/-- Embedding of the composite-building section of `service_handle`
(`main.rs` lines 257–327): compute the composite name with
`to_composite_path`, check existence (before any locking), then create
the composites cache, create and lock the global `lock` file,
best-effort remove and re-create `path_tmp`, copy each artifact, write
`url.txt`, run `createrepo` (the plan kind is `RPM`), and rename
`path_tmp` to the composite path.  There is no existence re-check
between `lock_exclusive` and the build. -/
def compositeBuild (config : Config) (plan : Plan) (env : CompositeEnv) : RunResult :=
  let node_name := to_composite_path plan
  let composite_path := pathJoin config.composites_cache node_name
  let path_tmp := pathJoin config.composites_cache (node_name ++ ".tmp")
  let lock := pathJoin config.composites_cache "lock"
  let repoStep :=
    match plan.kind with
    | .RPM => [(some (.bash ("createrepo " ++ path_tmp)), env.createrepoRes)]
  if env.finalExistsPre then
    { ops := [.checkExists composite_path], result := .ok (), published := false }
  else
    stepsResult [.checkExists composite_path]
      ([(some (.createDirAll config.composites_cache), env.createCacheDir),
        (some (.createFile lock), env.createLockFile),
        (some (.lockExclusive lock), env.lockRes),
        (some (.removeDirAll path_tmp), none),
        (some (.createDirAll path_tmp), env.createTmpDir)] ++
       compositeCopySteps config path_tmp env 0 plan.artifacts ++
       [(some (.writeFile (pathJoin path_tmp "url.txt")), env.writeUrl)] ++
       repoStep ++
       [(some (.rename path_tmp composite_path), env.renameRes)])

/-- An HTTP response as far as the wrapper is concerned: numeric status
and textual body. -/
structure HttpResponse where
  status : Nat
  body : String
deriving DecidableEq

/-- Derived `Debug` rendering of `Error` (`format!("\x7b:?\x7d", err)`),
the body text the wrapper serves; variants with a foreign payload
render the payload string it carries. -/
def errorDebugFmt : Error → String
  | .IoError m => "IoError(" ++ m ++ ")"
  | .ConfigFile => "ConfigFile"
  | .ConfigError m => "ConfigError(" ++ m ++ ")"
  | .TomlError m => "TomlError(" ++ m ++ ")"
  | .YAMLError m => "YAMLError(" ++ m ++ ")"
  | .ParseIntError k => "ParseIntError(ParseIntError \x7b kind: " ++ k ++ " \x7d)"
  | .BuilderError m => "BuilderError(" ++ fmtStr m ++ ")"
  | .GitlabError m => "GitlabError(" ++ m ++ ")"
  | .Help => "Help"
  | .Logging m => "Logging(" ++ m ++ ")"
  | .InvalidURIParts m => "InvalidURIParts(" ++ m ++ ")"
  | .PlanParse m => "PlanParse(" ++ fmtStr m ++ ")"
  | .UnknownSource n => "UnknownSource(" ++ fmtStr n ++ ")"
  | .Boxed m => "Boxed(" ++ m ++ ")"
  | .CommandError p c => "CommandError(" ++ fmtStr p ++ ", " ++ fmtStr c ++ ")"
  | .InvalidAddress m => "InvalidAddress(" ++ fmtStr m ++ ")"

/-- Embedding of `service_handle` (`main.rs` lines 193–341) at the
request level: parse the URI to a plan, then materialize every plan
artifact, then build the composite, then serve.  The artifact loop, the
composite build and the static serve are summarized by their outcomes
(`materializeRes`, `compositeRes`, `serveRes`), each of which the `?`
operator propagates. -/
def service_handle (config : Config) (uri : String)
    (materializeRes : Option Error) (compositeRes : Option Error)
    (serveRes : Except Error HttpResponse) : Except Error HttpResponse :=
  match from_uri uri config with
  | .error e => .error e
  | .ok _ =>
    match materializeRes with
    | some e => .error e
    | none =>
      match compositeRes with
      | some e => .error e
      | none => serveRes

/-- Embedding of `service_handle_wrapper` (`main.rs` lines 343–354):
pass a successful response through; turn any error into an `Ok`
response with `StatusCode::BAD_REQUEST` (400) and the error's `Debug`
rendering as body, so the connection itself never fails. -/
def service_handle_wrapper (config : Config) (uri : String)
    (materializeRes : Option Error) (compositeRes : Option Error)
    (serveRes : Except Error HttpResponse) : HttpResponse :=
  match service_handle config uri materializeRes compositeRes serveRes with
  | .ok v => v
  | .error err => { status := 400, body := errorDebugFmt err }

/-- A concrete configuration with one source of each kind, used for
witnesses and counterexamples. -/
def sampleConfig : Config :=
  ⟨"/composites", "/cache", "127.0.0.1:4444",
   [("gl", ⟨"key", "host"⟩)], [("local", ⟨"/opt/out"⟩)], [("rs", ⟨"http://files"⟩)]⟩

/-- C4: the composite-path function is a pure function of the plan with
`sub_uri` excluded: computing `to_composite_path` twice on the same
plan yields the same digest, and two plans equal in `artifacts` and
`kind` yield equal digests whatever their `sub_uri`s. -/
theorem claim_C4_composite_path_ignores_sub_uri (p1 p2 : Plan) :
    to_composite_path p1 = to_composite_path p1 ∧
    (p1.artifacts = p2.artifacts → p1.kind = p2.kind →
      to_composite_path p1 = to_composite_path p2) := by
  refine ⟨rfl, fun hart hkind => ?_⟩
  unfold to_composite_path
  rw [hart, hkind]

theorem claim_C4_witness :
    to_composite_path ⟨[.GitlabJob ⟨"gl", "grp/proj", 42⟩], "/repodata/repomd.xml", .RPM⟩ =
      to_composite_path ⟨[.GitlabJob ⟨"gl", "grp/proj", 42⟩], "/Packages/x.rpm", .RPM⟩ :=
  (claim_C4_composite_path_ignores_sub_uri
    ⟨[.GitlabJob ⟨"gl", "grp/proj", 42⟩], "/repodata/repomd.xml", .RPM⟩
    ⟨[.GitlabJob ⟨"gl", "grp/proj", 42⟩], "/Packages/x.rpm", .RPM⟩).2 rfl rfl

/-- C6: the `Config` struct `config.rs` declares recognizes only
`composites-cache`, `local-cache`, `listen-addr`, `gitlabs` and
`local-source` — `remote-source` is missing from it — while the
program's parser (`main.rs`) requires a `remote_source` mapping: with
the mapping present the prefix `rs` resolves to a `Remote` artifact,
and with it absent the same URI is rejected as an unknown source. -/
theorem claim_C6_remote_source_missing_from_config_rs :
    "remote-source" ∉ configRsDeclaredOptions ∧
    from_uri "/rs/sub/path" ⟨"/cc", "/lc", "a:1", [], [], [("rs", ⟨"http://h"⟩)]⟩ =
      .ok ⟨[.Remote ⟨"rs", "sub/path"⟩], "", .RPM⟩ ∧
    from_uri "/rs/sub/path" ⟨"/cc", "/lc", "a:1", [], [], []⟩ =
      .error (.UnknownSource "rs") :=
  ⟨by decide, rfl, rfl⟩

/-- C8: whenever `service_handle` returns an error — from plan parsing,
artifact materialization, composite building or serving — the wrapper
returns an ordinary response (never a failed connection) with status
400 and the `Debug` rendering of that error as body. -/
theorem claim_C8_errors_become_400 (config : Config) (uri : String)
    (materializeRes compositeRes : Option Error) (serveRes : Except Error HttpResponse)
    (e : Error)
    (h : service_handle config uri materializeRes compositeRes serveRes = .error e) :
    service_handle_wrapper config uri materializeRes compositeRes serveRes =
      ⟨400, errorDebugFmt e⟩ := by
  unfold service_handle_wrapper
  rw [h]

theorem claim_C8_witness :
    service_handle_wrapper sampleConfig "" none none (.ok ⟨200, "usual"⟩) =
      ⟨400, errorDebugFmt (.PlanParse "not enough components")⟩ :=
  claim_C8_errors_become_400 sampleConfig "" none none (.ok ⟨200, "usual"⟩)
    (.PlanParse "not enough components") rfl

/-- When a step run whose last step is the publishing rename fails, the
rename did not succeed, so nothing was published. -/
theorem stepsResult_error_not_published (pre : List Op)
    (steps : List (Option Op × Option Error)) (e : Error)
    (h : (stepsResult pre steps).result = .error e) :
    (stepsResult pre steps).published = false := by
  unfold stepsResult at h ⊢
  rcases hr : runSteps steps with ⟨ops, err⟩
  rw [hr] at h
  cases err with
  | none => simp at h
  | some e2 => simp

/-- A run whose reported result is an error did not have a successful
final step. -/
theorem matchErr_not_isNone {x : Option Error} {e : Error}
    (h : (match x with
          | some e2 => Except.error e2
          | none => Except.ok ()) = (Except.error e : Except Error Unit)) :
    x.isNone = false := by
  cases x <;> simp_all

/-- C7: artifact materialization is atomic with respect to errors: if
the `GitlabJob` or the `Remote` materialization returns an error, the
final cache directory was not published by that call — the rename of
`path_tmp` to the final name is the last step and only a fully
successful run reaches and completes it. -/
theorem claim_C7_error_means_unpublished (local_cache : String) (job : JobArtifact)
    (genv : GitlabEnv) (sra : StaticRemoteArtifact) (sr : RemoteSource)
    (renv : RemoteEnv) (e1 e2 : Error) :
    ((gitlabMaterialize local_cache job genv).result = .error e1 →
      (gitlabMaterialize local_cache job genv).published = false) ∧
    ((remoteMaterialize local_cache sra sr renv).result = .error e2 →
      (remoteMaterialize local_cache sra sr renv).published = false) := by
  constructor
  · intro h
    unfold gitlabMaterialize at h ⊢
    by_cases hp : genv.finalExistsPre
    · simp [hp] at h
    · simp only [hp, if_false, Bool.false_eq_true] at h ⊢
      exact stepsResult_error_not_published _ _ _ h
  · intro h
    unfold remoteMaterialize at h ⊢
    by_cases hp : renv.finalExistsPre
    · simp [hp] at h
    · simp only [hp, if_false, Bool.false_eq_true] at h ⊢
      rcases h0 : runSteps
        [(some (.createDirAll (pathJoin local_cache sra.source_name)), renv.createOrigDir),
         (some (.createFile (pathJoin (pathJoin local_cache sra.source_name) "lock")), renv.createLockFile),
         (some (.lockExclusive (pathJoin (pathJoin local_cache sra.source_name) "lock")), renv.lockRes),
         (some (.removeDirAll (pathJoin (pathJoin local_cache sra.source_name) (sra.subpath ++ ".tmp"))), none),
         (some (.createDirAll (pathJoin (pathJoin local_cache sra.source_name) (sra.subpath ++ ".tmp"))), renv.createTmpDir)] with ⟨ops0, err0⟩
      rw [h0] at h
      cases err0 with
      | some e0 => simp
      | none =>
        rcases hf : renv.fetchList with ef | txt
        · rw [hf] at h
        · rw [hf] at h
          simp only at h ⊢
          exact matchErr_not_isNone h

/-- A Gitlab materialization environment where every effect succeeds
except that the artifact download fails. -/
def gitlabEnvFail : GitlabEnv :=
  ⟨false, false, none, none, none, none, none, some (.IoError "connection reset"),
   none, none, none, none⟩

/-- A remote materialization environment where fetching `list.txt`
fails. -/
def remoteEnvFail : RemoteEnv :=
  ⟨false, false, none, none, none, none, .error (.IoError "404"),
   fun _ => true, fun _ => none, fun _ => none, fun _ => none, none⟩

theorem claim_C7_witness :
    (gitlabMaterialize "/cache" ⟨"gl", "grp", 42⟩ gitlabEnvFail).published = false ∧
    (remoteMaterialize "/cache" ⟨"rs", "sub"⟩ ⟨"http://h"⟩ remoteEnvFail).published = false :=
  ⟨(claim_C7_error_means_unpublished "/cache" ⟨"gl", "grp", 42⟩ gitlabEnvFail
      ⟨"rs", "sub"⟩ ⟨"http://h"⟩ remoteEnvFail (.IoError "connection reset") (.IoError "404")).1 rfl,
   (claim_C7_error_means_unpublished "/cache" ⟨"gl", "grp", 42⟩ gitlabEnvFail
      ⟨"rs", "sub"⟩ ⟨"http://h"⟩ remoteEnvFail (.IoError "connection reset") (.IoError "404")).2 rfl⟩

/-- The race environment of claim C1: the final directory does not exist
at the pre-lock check but does exist by the time the exclusive lock is
granted (a concurrent materializer published it in between); every
effect succeeds. -/
def gitlabEnvRace : GitlabEnv :=
  ⟨false, true, none, none, none, none, none, none, none, none, none, none⟩

/-- C1 counterexample: in a state where the final directory exists at
lock-acquisition time (but did not exist at the pre-lock check), the
Gitlab materialization still downloads and extracts — there is no
re-check under the lock, so the claim "if `final` exists when the lock
is acquired, no fetch or extraction is performed" is false. -/
theorem claim_C1_counterexample :
    gitlabEnvRace.finalExistsAtLock = true ∧
    Op.gitlabDownload "grp/proj" 42 ∈
      (gitlabMaterialize "/cache" ⟨"gl", "grp/proj", 42⟩ gitlabEnvRace).ops ∧
    Op.bash "unzip /cache/gl/grp/proj/42.tmp/artifacts_zip -d /cache/gl/grp/proj/42.tmp" ∈
      (gitlabMaterialize "/cache" ⟨"gl", "grp/proj", 42⟩ gitlabEnvRace).ops := by
  refine ⟨rfl, ?_, ?_⟩ <;> decide

/-- C1 as amended: the existence check of both the per-artifact cache
and the composite builder happens before the lock is acquired, and when
that pre-lock check reports the final directory present the procedure
stops after the check — no lock, fetch, extraction or `createrepo`
happens and it returns successfully. -/
theorem claim_C1_amended_precheck_only (local_cache : String) (job : JobArtifact)
    (genv : GitlabEnv) (config : Config) (plan : Plan) (cenv : CompositeEnv)
    (hg : genv.finalExistsPre = true) (hc : cenv.finalExistsPre = true) :
    (gitlabMaterialize local_cache job genv).ops =
      [.checkExists (pathJoin (pathJoin (pathJoin local_cache job.source_name) job.project)
        (toString job.job_id))] ∧
    (gitlabMaterialize local_cache job genv).result = .ok () ∧
    (compositeBuild config plan cenv).ops =
      [.checkExists (pathJoin config.composites_cache (to_composite_path plan))] ∧
    (compositeBuild config plan cenv).result = .ok () := by
  unfold gitlabMaterialize compositeBuild
  simp [hg, hc]

/-- An environment whose pre-lock existence check reports the final
directory present. -/
def gitlabEnvIdle : GitlabEnv :=
  ⟨true, true, none, none, none, none, none, none, none, none, none, none⟩

/-- A composite environment whose pre-lock existence check reports the
composite present. -/
def compositeEnvIdle : CompositeEnv :=
  ⟨true, true, none, none, none, none, fun _ => none, none, none, none⟩

theorem claim_C1_witness :
    (gitlabMaterialize "/cache" ⟨"gl", "grp", 7⟩ gitlabEnvIdle).ops =
      [.checkExists (pathJoin (pathJoin (pathJoin "/cache" "gl") "grp") (toString 7))] ∧
    (gitlabMaterialize "/cache" ⟨"gl", "grp", 7⟩ gitlabEnvIdle).result = .ok () ∧
    (compositeBuild sampleConfig ⟨[], "", .RPM⟩ compositeEnvIdle).ops =
      [.checkExists (pathJoin sampleConfig.composites_cache
        (to_composite_path ⟨[], "", .RPM⟩))] ∧
    (compositeBuild sampleConfig ⟨[], "", .RPM⟩ compositeEnvIdle).result = .ok () :=
  claim_C1_amended_precheck_only "/cache" ⟨"gl", "grp", 7⟩ gitlabEnvIdle
    sampleConfig ⟨[], "", .RPM⟩ compositeEnvIdle rfl rfl

/-- The first part of an item, as `Plan::from_uri` pops it. -/
def itemPfx (item : String) : String := (rsplitSlash item).headD ""

/-- C10: an item whose prefix names a configured `gitlabs` or
`local_source` source but which has no parts left once the prefix is
popped and `".."` parts are stripped is skipped without error: the item
loop returns success and appends no artifact. -/
theorem claim_C10_missing_parts_skipped (config : Config) (st : PState) (item : String)
    (hsrc : (config.gitlabs.lookup (itemPfx item)).isSome = true ∨
            (config.local_source.lookup (itemPfx item)).isSome = true)
    (hparts : (rsplitSlash item).tail.filter notDotdot = []) :
    ∃ su, processItem config st item = .ok ⟨st.artifacts, su⟩ := by
  rcases hsplit : rsplitSlash item with _ | ⟨pfx, rest⟩
  · exact ⟨st.sub_uri, by simp [processItem, hsplit]⟩
  · have hpfx : itemPfx item = pfx := by simp [itemPfx, hsplit]
    rw [hpfx] at hsrc
    have hrest : rest.filter notDotdot = [] := by
      simpa [hsplit] using hparts
    by_cases hrpm : pfx = "rpm"
    · exact ⟨"/" ++ rjoinSlash rest, by simp [processItem, hsplit, hrpm]⟩
    · by_cases hg : (config.gitlabs.lookup pfx).isSome
      · refine ⟨st.sub_uri, ?_⟩
        simp [processItem, hsplit, hrpm, hg, hrest]
      · have hl : (config.local_source.lookup pfx).isSome = true := by
          rcases hsrc with h | h
          · exact absurd h hg
          · exact h
        refine ⟨st.sub_uri, ?_⟩
        simp [processItem, hsplit, hrpm, hg, hl, hrest]

theorem claim_C10_witness :
    ∃ su, processItem sampleConfig ⟨[], ""⟩ "gl" = .ok ⟨[], su⟩ :=
  claim_C10_missing_parts_skipped sampleConfig ⟨[], ""⟩ "gl"
    (Or.inl (by decide)) (by decide)

/-- Recognizer for file-write operations in a trace. -/
def isWriteOp : Op → Bool
  | .writeFile _ => true
  | _ => false

/-- Recognizer for HTTP download operations in a trace. -/
def isHttpGetOp : Op → Bool
  | .httpGet _ => true
  | _ => false

/-- Running steps whose outcomes are all successes performs every
recorded operation and reports no error. -/
theorem runSteps_all_none (steps : List (Option Op × Option Error))
    (h : ∀ p ∈ steps, p.2 = none) :
    runSteps steps = (steps.filterMap Prod.fst, none) := by
  induction steps with
  | nil => simp [runSteps]
  | cons p rest ih =>
    obtain ⟨op, outc⟩ := p
    have h1 : outc = none := h _ (List.mem_cons_self _ _)
    subst h1
    have ih2 := ih (fun q hq => h q (List.mem_cons_of_mem _ hq))
    cases op <;> simp [runSteps, ih2, List.filterMap_cons]

/-- All per-line step outcomes are successes when the per-line outcome
families report none. -/
theorem remoteLineSteps_outcomes_none (base_url subpath path_tmp : String)
    (env : RemoteEnv)
    (h : ∀ i, env.mkParentDir i = none ∧ env.download i = none ∧ env.writeRes i = none) :
    ∀ lines i p, p ∈ remoteLineSteps base_url subpath path_tmp env i lines → p.2 = none := by
  intro lines
  induction lines with
  | nil => intro i p hp; simp [remoteLineSteps] at hp
  | cons line rest ih =>
    intro i p hp
    simp only [remoteLineSteps, List.append_assoc, List.mem_append] at hp
    rcases hp with hp | hp
    · by_cases hpar : env.parentExists i
      · simp [hpar] at hp
      · simp [hpar] at hp
        rw [hp]
        exact (h i).1
    · rcases hp with hp | hp
      · simp at hp
        rcases hp with hp | hp
        · rw [hp]; exact (h i).2.1
        · rw [hp]; exact (h i).2.2
      · exact ih (i + 1) p hp

/-- The write operations of the per-line loop, in order: one per line,
at the sanitized path under `path_tmp`. -/
theorem remoteLineSteps_writes (base_url subpath path_tmp : String) (env : RemoteEnv) :
    ∀ lines i,
      ((remoteLineSteps base_url subpath path_tmp env i lines).filterMap Prod.fst).filter isWriteOp =
        lines.map (fun line => .writeFile (pathJoin path_tmp (sanitizeLine line))) := by
  intro lines
  induction lines with
  | nil => intro i; simp [remoteLineSteps]
  | cons line rest ih =>
    intro i
    by_cases hpar : env.parentExists i <;>
      simp [remoteLineSteps, hpar, List.filterMap_append, List.filterMap_cons,
        List.filter_append, isWriteOp, ih (i + 1)]

/-- The download operations of the per-line loop, in order: one per
line, at the sanitized sub-URL. -/
theorem remoteLineSteps_gets (base_url subpath path_tmp : String) (env : RemoteEnv) :
    ∀ lines i,
      ((remoteLineSteps base_url subpath path_tmp env i lines).filterMap Prod.fst).filter isHttpGetOp =
        lines.map (fun line => .httpGet (base_url ++ "/" ++ subpath ++ "/" ++ sanitizeLine line)) := by
  intro lines
  induction lines with
  | nil => intro i; simp [remoteLineSteps]
  | cons line rest ih =>
    intro i
    by_cases hpar : env.parentExists i <;>
      simp [remoteLineSteps, hpar, List.filterMap_append, List.filterMap_cons,
        List.filter_append, isHttpGetOp, ih (i + 1)]

/-- A remote environment where everything succeeds and `list.txt`
yields the given text. -/
def remoteEnvList (txt : String) : RemoteEnv :=
  ⟨false, false, none, none, none, none, .ok txt,
   fun _ => true, fun _ => none, fun _ => none, fun _ => none, none⟩

/-- C5 counterexample: Rust `lines()` yields empty lines too, and the
fetch loop of `cache_static_remote_artifact` processes them: with
`list.txt` content `"a\n\nb"` the middle line is the empty string, and
the run downloads `\x7bbase-url\x7d/\x7bsubpath\x7d/` and attempts a write
for it, so the loop does not process only the non-empty lines. -/
theorem claim_C5_counterexample :
    rustLines "a\n\nb" = ["a", "", "b"] ∧
    sanitizeLine "" = "" ∧
    Op.httpGet "http://h/sub/" ∈
      (remoteMaterialize "/cache" ⟨"rs", "sub"⟩ ⟨"http://h"⟩ (remoteEnvList "a\n\nb")).ops ∧
    Op.writeFile "/cache/rs/sub.tmp/" ∈
      (remoteMaterialize "/cache" ⟨"rs", "sub"⟩ ⟨"http://h"⟩ (remoteEnvList "a\n\nb")).ops := by
  refine ⟨rfl, rfl, ?_, ?_⟩ <;> decide

/-- C5 as amended: on a successful run, the fetch loop processes every
line `lines()` yields from `list.txt` — empty lines included — and only
those, in order; each line is sanitized by splitting on `/`, dropping
`".."` parts and leading empty parts and re-joining, downloaded from
`\x7bbase-url\x7d/\x7bsubpath\x7d/\x7bsanitized\x7d`, and written under
`path_tmp` at the sanitized relative path. -/
theorem claim_C5_amended_all_lines_processed (local_cache : String)
    (sra : StaticRemoteArtifact) (sr : RemoteSource) (env : RemoteEnv) (txt : String)
    (hpre : env.finalExistsPre = false)
    (h1 : env.createOrigDir = none) (h2 : env.createLockFile = none)
    (h3 : env.lockRes = none) (h4 : env.createTmpDir = none)
    (hlist : env.fetchList = .ok txt)
    (hline : ∀ i, env.mkParentDir i = none ∧ env.download i = none ∧ env.writeRes i = none)
    (hren : env.renameRes = none) :
    (remoteMaterialize local_cache sra sr env).ops.filter isWriteOp =
      (rustLines txt).map (fun line =>
        .writeFile (pathJoin (pathJoin (pathJoin local_cache sra.source_name)
          (sra.subpath ++ ".tmp")) (sanitizeLine line))) ∧
    (remoteMaterialize local_cache sra sr env).ops.filter isHttpGetOp =
      .httpGet (sr.base_url ++ "/" ++ sra.subpath ++ "/list.txt") ::
        (rustLines txt).map (fun line =>
          .httpGet (sr.base_url ++ "/" ++ sra.subpath ++ "/" ++ sanitizeLine line)) := by
  have hpresteps := runSteps_all_none
    [(some (.createDirAll (pathJoin local_cache sra.source_name)), env.createOrigDir),
     (some (.createFile (pathJoin (pathJoin local_cache sra.source_name) "lock")), env.createLockFile),
     (some (.lockExclusive (pathJoin (pathJoin local_cache sra.source_name) "lock")), env.lockRes),
     (some (.removeDirAll (pathJoin (pathJoin local_cache sra.source_name) (sra.subpath ++ ".tmp"))), none),
     (some (.createDirAll (pathJoin (pathJoin local_cache sra.source_name) (sra.subpath ++ ".tmp"))), env.createTmpDir)]
    (by simp [h1, h2, h3, h4])
  have hlinesteps := runSteps_all_none
    (remoteLineSteps sr.base_url sra.subpath
      (pathJoin (pathJoin local_cache sra.source_name) (sra.subpath ++ ".tmp")) env 0
      (rustLines txt) ++
     [(some (.rename (pathJoin (pathJoin local_cache sra.source_name) (sra.subpath ++ ".tmp"))
         (pathJoin (pathJoin local_cache sra.source_name) sra.subpath)), env.renameRes)])
    (by
      intro p hp
      rcases List.mem_append.mp hp with hp | hp
      · exact remoteLineSteps_outcomes_none _ _ _ env hline _ _ _ hp
      · simp at hp
        rw [hp, hren])
  unfold remoteMaterialize
  rw [hpre]
  simp only [Bool.false_eq_true, if_false, hpresteps, hlist, hlinesteps]
  simp only [List.filterMap_append, List.filterMap_cons, List.filterMap_nil]
  constructor
  · simp [List.filter_append, isWriteOp, remoteLineSteps_writes]
  · simp [List.filter_append, isHttpGetOp, remoteLineSteps_gets]

theorem claim_C5_witness :
    (remoteMaterialize "/cache" ⟨"rs", "sub"⟩ ⟨"http://h"⟩ (remoteEnvList "a\n\nb")).ops.filter isWriteOp =
      (rustLines "a\n\nb").map (fun line =>
        .writeFile (pathJoin (pathJoin (pathJoin "/cache" "rs") ("sub" ++ ".tmp")) (sanitizeLine line))) ∧
    (remoteMaterialize "/cache" ⟨"rs", "sub"⟩ ⟨"http://h"⟩ (remoteEnvList "a\n\nb")).ops.filter isHttpGetOp =
      .httpGet ("http://h" ++ "/" ++ "sub" ++ "/list.txt") ::
        (rustLines "a\n\nb").map (fun line =>
          .httpGet ("http://h" ++ "/" ++ "sub" ++ "/" ++ sanitizeLine line)) :=
  claim_C5_amended_all_lines_processed "/cache" ⟨"rs", "sub"⟩ ⟨"http://h"⟩
    (remoteEnvList "a\n\nb") "a\n\nb" rfl rfl rfl rfl rfl rfl
    (fun _ => ⟨rfl, rfl, rfl⟩) rfl

/-- Pieces produced by `splitOnP` contain no separator element. -/
theorem not_p_of_mem_splitOnP {α : Type} (p : α → Bool) :
    ∀ (l piece : List α), piece ∈ l.splitOnP p → ∀ x ∈ piece, ¬ p x = true := by
  intro l
  induction l with
  | nil =>
    intro piece hp
    rw [List.splitOnP_nil] at hp
    simp only [List.mem_singleton] at hp
    subst hp
    intro x hx
    simp at hx
  | cons a l ih =>
    intro piece hp
    rw [List.splitOnP_cons] at hp
    by_cases hpa : p a
    · rw [if_pos hpa] at hp
      rcases List.mem_cons.mp hp with h | h
      · subst h; intro x hx; simp at hx
      · exact ih piece h
    · rw [if_neg hpa] at hp
      rcases hsp : l.splitOnP p with _ | ⟨hd, tl⟩
      · exact absurd hsp (List.splitOnP_ne_nil p l)
      · rw [hsp] at hp
        simp only [List.modifyHead] at hp
        rcases List.mem_cons.mp hp with h | h
        · subst h
          intro x hx
          rcases List.mem_cons.mp hx with h2 | h2
          · subst h2; exact hpa
          · exact ih hd (by rw [hsp]; exact List.mem_cons_self _ _) x h2
        · exact ih piece (by rw [hsp]; exact List.mem_cons_of_mem _ h)

/-- Pieces of a slash split contain no slash. -/
theorem no_slash_of_mem_rsplitSlash (s piece : String) (h : piece ∈ rsplitSlash s) :
    '/' ∉ piece.data := by
  unfold rsplitSlash at h
  rcases List.mem_map.mp h with ⟨pl, hpl, hmk⟩
  intro hmem
  have := not_p_of_mem_splitOnP (fun c => c == '/') s.data pl hpl '/'
    (by rw [← hmk] at hmem; exact hmem)
  simp at this

/-- Structure eta for strings: rebuilding a string from its character
data gives it back. -/
theorem mk_data (s : String) : String.mk s.data = s := rfl

/-- Splitting the slash join of slash-free nonempty piece lists
recovers the pieces. -/
theorem rsplitSlash_rjoinSlash (parts : List String) (hne : parts ≠ [])
    (h : ∀ s ∈ parts, '/' ∉ s.data) :
    rsplitSlash (rjoinSlash parts) = parts := by
  unfold rsplitSlash rjoinSlash
  have hx : ∀ l ∈ parts.map String.data, '/' ∉ l := by
    intro l hl
    rcases List.mem_map.mp hl with ⟨s, hs, rfl⟩
    exact h s hs
  have hne2 : parts.map String.data ≠ [] := by
    intro hc
    exact hne (List.map_eq_nil_iff.mp hc)
  rw [List.splitOn_intercalate (parts.map String.data) '/' hx hne2]
  rw [List.map_map]
  exact List.map_id _

/-- A string assembled by slash-joining parts that are slash-free and
distinct from `".."` has no `..` segment. -/
theorem no_dotdot_of_rjoin (parts : List String)
    (hnd : ∀ s ∈ parts, notDotdot s = true)
    (hns : ∀ s ∈ parts, '/' ∉ s.data) :
    ¬ hasDotdotSeg (rjoinSlash parts) := by
  intro hdd
  unfold hasDotdotSeg at hdd
  rcases hp : parts with _ | ⟨a, l⟩
  · subst hp
    revert hdd
    decide
  · subst hp
    rw [rsplitSlash_rjoinSlash _ (by simp) hns] at hdd
    have := hnd _ hdd
    simp [notDotdot] at this

/-- A slash-free string is its own single slash-segment. -/
theorem rsplitSlash_single (s : String) (h : '/' ∉ s.data) : rsplitSlash s = [s] := by
  unfold rsplitSlash
  unfold List.splitOn
  rw [List.splitOnP_eq_single]
  · simp [mk_data]
  · intro x hx hbeq
    rw [eq_of_beq hbeq] at hx
    exact h hx

/-- The sanitation invariant every artifact the parser emits satisfies:
the `GitlabJob` project passed the regex search and, like the `Local`
key and the `Remote` subpath, contains no `..` segment. -/
def artifactOk : Artifact → Prop
  | .GitlabJob j => re_is_match j.project = true ∧ ¬ hasDotdotSeg j.project
  | .Local loc => loc.key ≠ ".." ∧ ¬ hasDotdotSeg loc.key
  | .Remote remote => ¬ hasDotdotSeg remote.subpath

/-- One parser item appends at most one artifact, and any appended
artifact satisfies the sanitation invariant. -/
theorem processItem_artifacts_shape (config : Config) (st : PState) (item : String)
    (st2 : PState) (h : processItem config st item = .ok st2) :
    st2.artifacts = st.artifacts ∨
    ∃ a, st2.artifacts = st.artifacts ++ [a] ∧ artifactOk a := by
  have hnoslash : ∀ s ∈ rsplitSlash item, '/' ∉ s.data :=
    fun s hs => no_slash_of_mem_rsplitSlash item s hs
  unfold processItem at h
  rcases hsplit : rsplitSlash item with _ | ⟨pfx, rest⟩
  · rw [hsplit] at h
    simp only at h
    left
    cases h
    rfl
  · rw [hsplit] at h
    simp only at h
    rw [hsplit] at hnoslash
    have hrestns : ∀ s ∈ rest.filter notDotdot, '/' ∉ s.data := by
      intro s hs
      exact hnoslash s (List.mem_cons_of_mem _ (List.mem_of_mem_filter hs))
    by_cases hrpm : pfx = "rpm"
    · rw [if_pos hrpm] at h
      left
      cases h
      rfl
    · rw [if_neg hrpm] at h
      by_cases hg : (config.gitlabs.lookup pfx).isSome
      · rw [if_pos hg] at h
        rcases hlast : (rest.filter notDotdot).getLast? with _ | job_id
        · rw [hlast] at h
          simp only at h
          left
          cases h
          rfl
        · rw [hlast] at h
          simp only at h
          by_cases hre : re_is_match (rjoinSlash (rest.filter notDotdot).dropLast) = true
          · rw [if_neg (by simp [hre])] at h
            rcases hparse : parse_u64 job_id with kind | j
            · rw [hparse] at h
              simp at h
            · rw [hparse] at h
              right
              refine ⟨.GitlabJob ⟨pfx, rjoinSlash (rest.filter notDotdot).dropLast, j⟩,
                by cases h; rfl, hre, ?_⟩
              refine no_dotdot_of_rjoin _ ?_ ?_
              · intro s hs
                exact List.of_mem_filter (List.dropLast_prefix _ |>.subset hs)
              · intro s hs
                exact hrestns s (List.dropLast_prefix _ |>.subset hs)
          · rw [if_pos (by simp [hre])] at h
            simp at h
      · rw [if_neg hg] at h
        by_cases hl : (config.local_source.lookup pfx).isSome
        · rw [if_pos hl] at h
          rcases hlast : (rest.filter notDotdot).getLast? with _ | key
          · rw [hlast] at h
            simp only at h
            left
            cases h
            rfl
          · rw [hlast] at h
            simp only at h
            by_cases hkey : key ≠ ".."
            · rw [if_pos hkey] at h
              right
              refine ⟨.Local ⟨pfx, key⟩, by cases h; rfl, hkey, ?_⟩
              intro hdd
              unfold hasDotdotSeg at hdd
              have hkeymem : key ∈ rest.filter notDotdot := by
                obtain ⟨hne, heq⟩ := List.mem_getLast?_eq_getLast hlast
                rw [heq]
                exact List.getLast_mem hne
              rw [rsplitSlash_single key (hrestns key hkeymem)] at hdd
              simp at hdd
              exact hkey hdd.symm
            · rw [if_neg hkey] at h
              left
              cases h
              rfl
        · rw [if_neg hl] at h
          by_cases hr : (config.remote_source.lookup pfx).isSome
          · rw [if_pos hr] at h
            right
            refine ⟨.Remote ⟨pfx, rjoinSlash (rest.filter notDotdot)⟩, by cases h; rfl, ?_⟩
            refine no_dotdot_of_rjoin _ ?_ hrestns
            intro s hs
            exact List.of_mem_filter hs
          · rw [if_neg hr] at h
            simp at h

/-- Every artifact in the state after running the item loop satisfies
the sanitation invariant, provided the initial ones do. -/
theorem processItems_artifacts_ok (config : Config) :
    ∀ (items : List String) (st st2 : PState),
      processItems config st items = .ok st2 →
      (∀ a ∈ st.artifacts, artifactOk a) → ∀ a ∈ st2.artifacts, artifactOk a := by
  intro items
  induction items with
  | nil =>
    intro st st2 h hinv
    unfold processItems at h
    cases h
    exact hinv
  | cons it rest ih =>
    intro st st2 h hinv
    unfold processItems at h
    rcases hit : processItem config st it with e | st1
    · rw [hit] at h
      simp at h
    · rw [hit] at h
      simp only at h
      refine ih st1 st2 h ?_
      rcases processItem_artifacts_shape config st it st1 hit with heq | ⟨a, heq, ha⟩
      · rw [heq]; exact hinv
      · rw [heq]
        intro b hb
        rcases List.mem_append.mp hb with hb | hb
        · exact hinv b hb
        · rw [List.mem_singleton.mp hb]
          exact ha

/-- Every artifact of an accepted plan satisfies the sanitation
invariant. -/
theorem from_uri_artifacts_ok (uri : String) (config : Config) (plan : Plan)
    (h : from_uri uri config = .ok plan) :
    ∀ a ∈ plan.artifacts, artifactOk a := by
  unfold from_uri at h
  by_cases hlen : (rsplitSlash uri).length ≤ 2
  · rw [if_pos hlen] at h
    simp at h
  · rw [if_neg hlen] at h
    simp only at h
    rcases hpi : processItems config ⟨[], ""⟩
        (splitDashSep (rjoinSlash ((rsplitSlash uri).drop 1))) with e | st
    · rw [hpi] at h
      simp at h
    · rw [hpi] at h
      simp only at h
      cases h
      intro a ha
      exact processItems_artifacts_ok config _ _ _ hpi (by simp) a ha

/-- The per-field reading of the path-traversal claim: no artifact
field contains a `..` segment. -/
def artifactNoDotdot : Artifact → Prop
  | .GitlabJob j => ¬ hasDotdotSeg j.project
  | .Local loc => ¬ hasDotdotSeg loc.key
  | .Remote remote => ¬ hasDotdotSeg remote.subpath

/-- C2 counterexample: the `rpm` item is handled before the `..` filter
runs, so the returned plan's `sub_uri` can contain a `..` segment: the
URI `/rpm/../x` parses successfully to a plan whose `sub_uri` is
`/../x`. -/
theorem claim_C2_counterexample :
    from_uri "/rpm/../x" sampleConfig = .ok ⟨[], "/../x", .RPM⟩ ∧
    hasDotdotSeg "/../x" :=
  ⟨rfl, by decide⟩

/-- C2 as amended: parts equal to `..` are stripped from the interior
of every non-`rpm` item before use, so no field of any emitted artifact
(project, key, subpath) contains a `..` segment; the `rpm` item is
exempt from the stripping and the plan's `sub_uri` may therefore
contain `..` segments. -/
theorem claim_C2_amended_artifact_fields_sanitized (uri : String) (config : Config)
    (plan : Plan) (h : from_uri uri config = .ok plan) :
    ∀ a ∈ plan.artifacts, artifactNoDotdot a := by
  intro a ha
  have h2 := from_uri_artifacts_ok uri config plan h a ha
  cases a with
  | GitlabJob j => exact h2.2
  | Local loc => exact h2.2
  | Remote remote => exact h2

theorem claim_C2_witness : ¬ hasDotdotSeg "p/q" :=
  claim_C2_amended_artifact_fields_sanitized "/gl/p/../q/7" sampleConfig
    ⟨[.GitlabJob ⟨"gl", "p/q", 7⟩], "", .RPM⟩ rfl
    (.GitlabJob ⟨"gl", "p/q", 7⟩) (by decide)

/-- C3 counterexample: `Regex::is_match` searches for a match anywhere
in the project rather than anchoring it, so a project containing a
single character of the class `[/a-z0-9_-]` passes the check even when
other characters are outside the class: `/gl/A_B/5` parses successfully
and emits a `GitlabJob` whose project `A_B` does not consist of
characters from the class. -/
theorem claim_C3_counterexample :
    from_uri "/gl/A_B/5" sampleConfig = .ok ⟨[.GitlabJob ⟨"gl", "A_B", 5⟩], "", .RPM⟩ ∧
    specProjectCharsetOk "A_B" = false :=
  ⟨rfl, by decide⟩

/-- C3 as amended: the parser rejects a gitlabs item exactly when the
project contains no character of the class `[/a-z0-9_-]` (the unanchored
regex search), and a `GitlabJob` artifact is emitted only for projects
containing at least one character of that class. -/
theorem claim_C3_amended_regex_is_search :
    (∀ (config : Config) (st : PState) (pfx : String) (rest : List String)
       (item : String) (job_id : String),
       rsplitSlash item = pfx :: rest → pfx ≠ "rpm" →
       (config.gitlabs.lookup pfx).isSome = true →
       (rest.filter notDotdot).getLast? = some job_id →
       re_is_match (rjoinSlash (rest.filter notDotdot).dropLast) = false →
       processItem config st item =
         .error (.PlanParse (rjoinSlash (rest.filter notDotdot).dropLast ++
           " invalid project name"))) ∧
    (∀ (uri : String) (config : Config) (plan : Plan),
       from_uri uri config = .ok plan →
       ∀ j, .GitlabJob j ∈ plan.artifacts → re_is_match j.project = true) := by
  constructor
  · intro config st pfx rest item job_id hsplit hrpm hg hlast hre
    simp [processItem, hsplit, hrpm, hg, hlast, hre]
  · intro uri config plan h j hj
    exact (from_uri_artifacts_ok uri config plan h (.GitlabJob j) hj).1

theorem claim_C3_witness :
    processItem sampleConfig ⟨[], ""⟩ "gl/AB%/5" =
      .error (.PlanParse (rjoinSlash (["AB%", "5"].filter notDotdot).dropLast ++
        " invalid project name")) ∧
    re_is_match "x" = true :=
  ⟨claim_C3_amended_regex_is_search.1 sampleConfig ⟨[], ""⟩ "gl" ["AB%", "5"]
     "gl/AB%/5" "5" rfl (by decide) (by decide) rfl (by decide),
   claim_C3_amended_regex_is_search.2 "/gl/x/1" sampleConfig
     ⟨[.GitlabJob ⟨"gl", "x", 1⟩], "", .RPM⟩ rfl ⟨"gl", "x", 1⟩ (by decide)⟩

/-- An item the parser treats via the `rpm` branch: its first part is
the literal `rpm`. -/
def isRpmItem (item : String) : Bool := itemPfx item == "rpm"

/-- The `sub_uri` value the `rpm` branch derives from an item: the
remaining parts joined with `/` and prefixed with `/`. -/
def rpmSubUri (item : String) : String := "/" ++ rjoinSlash (rsplitSlash item).tail

/-- On an `rpm` item the loop only overwrites `sub_uri`. -/
theorem processItem_rpm (config : Config) (st : PState) (item : String)
    (h : isRpmItem item = true) :
    processItem config st item = .ok ⟨st.artifacts, rpmSubUri item⟩ := by
  rcases hsplit : rsplitSlash item with _ | ⟨pfx, rest⟩
  · exfalso
    unfold isRpmItem itemPfx at h
    rw [hsplit] at h
    simp at h
  · have hpfx : pfx = "rpm" := by
      unfold isRpmItem itemPfx at h
      rw [hsplit] at h
      simpa using h
    unfold rpmSubUri
    rw [hsplit]
    simp [processItem, hsplit, hpfx]

/-- On a non-`rpm` item the loop never reads `sub_uri`: running it from
the same artifacts but any other `sub_uri` gives the same outcome with
only the (unchanged) `sub_uri` differing. -/
theorem processItem_sub_uri_map (config : Config) (st : PState) (su2 : String)
    (item : String) (h : isRpmItem item = false) :
    processItem config ⟨st.artifacts, su2⟩ item =
      (processItem config st item).map (fun s => ⟨s.artifacts, su2⟩) := by
  rcases hsplit : rsplitSlash item with _ | ⟨pfx, rest⟩
  · simp [processItem, hsplit, Except.map]
  · have hrpm : pfx ≠ "rpm" := by
      unfold isRpmItem itemPfx at h
      rw [hsplit] at h
      simpa using h
    by_cases hg : (config.gitlabs.lookup pfx).isSome
    · rcases hlast : (rest.filter notDotdot).getLast? with _ | job_id
      · simp [processItem, hsplit, hrpm, hg, hlast, Except.map]
      · by_cases hre : re_is_match (rjoinSlash (rest.filter notDotdot).dropLast) = true
        · rcases hparse : parse_u64 job_id with kind | j
          · simp [processItem, hsplit, hrpm, hg, hlast, hre, hparse, Except.map]
          · simp [processItem, hsplit, hrpm, hg, hlast, hre, hparse, Except.map]
        · simp [processItem, hsplit, hrpm, hg, hlast, hre, Except.map]
    · by_cases hl : (config.local_source.lookup pfx).isSome
      · rcases hlast : (rest.filter notDotdot).getLast? with _ | key
        · simp [processItem, hsplit, hrpm, hg, hl, hlast, Except.map]
        · by_cases hkey : key = ".."
          · simp [processItem, hsplit, hrpm, hg, hl, hlast, hkey, Except.map]
          · simp [processItem, hsplit, hrpm, hg, hl, hlast, hkey, Except.map]
      · by_cases hr : (config.remote_source.lookup pfx).isSome
        · simp [processItem, hsplit, hrpm, hg, hl, hr, Except.map]
        · simp [processItem, hsplit, hrpm, hg, hl, hr, Except.map]

/-- A cons list whose tail has a last element keeps it. -/
theorem getLast?_cons_some {α : Type} (a x : α) (l : List α)
    (h : l.getLast? = some x) : (a :: l).getLast? = some x := by
  cases l with
  | nil => simp at h
  | cons b t =>
    rw [List.getLast?_cons_cons]
    exact h

/-- A list with no last element is empty. -/
theorem eq_nil_of_getLast?_none {α : Type} (l : List α)
    (h : l.getLast? = none) : l = [] := by
  cases l with
  | nil => rfl
  | cons b t =>
    rw [List.getLast?_eq_getLast_of_ne_nil (by simp)] at h
    simp at h

/-- Consing onto a list with no last element makes the new head the
last element. -/
theorem getLast?_cons_none {α : Type} (a : α) (l : List α)
    (h : l.getLast? = none) : (a :: l).getLast? = some a := by
  rw [eq_nil_of_getLast?_none l h]
  rfl

/-- The artifact list the item loop computes does not depend on the
initial `sub_uri` and is unchanged when the `rpm` items are removed
from the item list. -/
theorem processItems_filter_rpm (config : Config) :
    ∀ (items : List String) (arts : List Artifact) (su su2 : String),
      (processItems config ⟨arts, su⟩ items).map (fun s => s.artifacts) =
      (processItems config ⟨arts, su2⟩
        (items.filter (fun it => !isRpmItem it))).map (fun s => s.artifacts) := by
  intro items
  induction items with
  | nil =>
    intro arts su su2
    simp [processItems, Except.map]
  | cons it rest ih =>
    intro arts su su2
    by_cases hr : isRpmItem it
    · rw [List.filter_cons_of_neg (by simp [hr])]
      rw [processItems]
      rw [processItem_rpm config ⟨arts, su⟩ it hr]
      simp only
      exact ih arts (rpmSubUri it) su2
    · rw [List.filter_cons_of_pos (by simp [hr])]
      rw [processItems]
      rw [show processItems config ⟨arts, su2⟩ (it :: rest.filter (fun x => !isRpmItem x)) =
            match processItem config ⟨arts, su2⟩ it with
            | .error e => .error e
            | .ok st2 => processItems config st2 (rest.filter (fun x => !isRpmItem x))
          from rfl]
      have hmap : processItem config ⟨arts, su2⟩ it =
          (processItem config ⟨arts, su⟩ it).map (fun s => ⟨s.artifacts, su2⟩) :=
        processItem_sub_uri_map config ⟨arts, su⟩ su2 it (by simpa using hr)
      rcases hit : processItem config ⟨arts, su⟩ it with e | st1
      · rw [hit] at hmap
        rw [hmap]
        simp [Except.map]
      · rw [hit] at hmap
        simp only [Except.map] at hmap
        rw [hmap]
        simp only
        exact ih st1.artifacts st1.sub_uri su2

/-- After the item loop, `sub_uri` is the one derived from the last
`rpm` item, or the initial value when there is none. -/
theorem processItems_last_rpm (config : Config) :
    ∀ (items : List String) (st st2 : PState),
      processItems config st items = .ok st2 →
      st2.sub_uri = (((items.filter isRpmItem).getLast?).map rpmSubUri).getD st.sub_uri := by
  intro items
  induction items with
  | nil =>
    intro st st2 h
    unfold processItems at h
    cases h
    simp
  | cons it rest ih =>
    intro st st2 h
    rw [processItems] at h
    by_cases hr : isRpmItem it
    · rw [processItem_rpm config st it hr] at h
      simp only at h
      have hsub := ih _ _ h
      rw [List.filter_cons_of_pos (by simpa using hr)]
      rcases hl : (rest.filter isRpmItem).getLast? with _ | it2
      · rw [hl] at hsub
        rw [getLast?_cons_none it _ hl]
        simpa using hsub
      · rw [hl] at hsub
        rw [getLast?_cons_some it it2 _ hl]
        simpa using hsub
    · rcases hit : processItem config st it with e | st1
      · rw [hit] at h
        simp at h
      · rw [hit] at h
        simp only at h
        have hsub := ih _ _ h
        have hmap : processItem config ⟨st.artifacts, st.sub_uri⟩ it =
            (processItem config st it).map (fun s => ⟨s.artifacts, st.sub_uri⟩) :=
          processItem_sub_uri_map config st st.sub_uri it (by simpa using hr)
        rw [hit] at hmap
        simp only [Except.map] at hmap
        have hst1 : st1.sub_uri = st.sub_uri := by
          injection hmap with h2
          rw [h2]
        rw [List.filter_cons_of_neg (by simpa using hr)]
        rw [hsub, hst1]

/-- C9: when a request path contains `rpm` items, the accepted plan's
`sub_uri` is the one derived from the last `rpm` item (each later one
overwrites the earlier), it is the empty initial value when there is
none, and the artifact list is unaffected by `rpm` items: running the
loop on the item list with all `rpm` items removed yields the same
artifacts. -/
theorem claim_C9_last_rpm_wins (uri : String) (config : Config) (plan : Plan)
    (h : from_uri uri config = .ok plan) :
    (∀ it, ((uriItems uri).filter isRpmItem).getLast? = some it →
       plan.sub_uri = rpmSubUri it) ∧
    (((uriItems uri).filter isRpmItem).getLast? = none → plan.sub_uri = "") ∧
    (∃ su, processItems config ⟨[], ""⟩
       ((uriItems uri).filter (fun it => !isRpmItem it)) = .ok ⟨plan.artifacts, su⟩) := by
  unfold from_uri at h
  by_cases hlen : (rsplitSlash uri).length ≤ 2
  · rw [if_pos hlen] at h
    simp at h
  · rw [if_neg hlen] at h
    simp only at h
    rcases hpi : processItems config ⟨[], ""⟩
        (splitDashSep (rjoinSlash ((rsplitSlash uri).drop 1))) with e | st
    · rw [hpi] at h
      simp at h
    · rw [hpi] at h
      simp only at h
      cases h
      have hsub := processItems_last_rpm config _ _ _ hpi
      have hart := processItems_filter_rpm config
        (splitDashSep (rjoinSlash ((rsplitSlash uri).drop 1))) [] "" ""
      rw [hpi] at hart
      refine ⟨?_, ?_, ?_⟩
      · intro it hit
        unfold uriItems at hit
        rw [hit] at hsub
        simpa using hsub
      · intro hnone
        unfold uriItems at hnone
        rw [hnone] at hsub
        simpa using hsub
      · unfold uriItems
        rcases hpf : processItems config ⟨[], ""⟩
            ((splitDashSep (rjoinSlash ((rsplitSlash uri).drop 1))).filter
              (fun it => !isRpmItem it)) with e2 | st3
        · rw [hpf] at hart
          simp [Except.map] at hart
        · rw [hpf] at hart
          simp only [Except.map] at hart
          refine ⟨st3.sub_uri, ?_⟩
          injection hart with h2
          simp only
          rw [h2]

theorem claim_C9_witness :
    (⟨[.GitlabJob ⟨"gl", "p", 1⟩], "/b/c", .RPM⟩ : Plan).sub_uri = rpmSubUri "rpm/b/c" :=
  (claim_C9_last_rpm_wins "/gl/p/1/-/rpm/a/-/rpm/b/c" sampleConfig
    ⟨[.GitlabJob ⟨"gl", "p", 1⟩], "/b/c", .RPM⟩ rfl).1 "rpm/b/c" (by decide)
